import Mathlib

/-!
Shallow embedding of the filtering and document-assembly engine of
Code-Cartographer (src/configProcessor.ts, src/codeCartographer.ts).

Glob matching (micromatch.isMatch with dot:true) and path relativisation
(path.relative + separator normalisation) are external libraries; they are
abstracted as parameters `m : Matcher` and `rel : String → String`.
`litMatch` below is a concrete instance agreeing with micromatch on
pattern lists made of literal patterns (no glob metacharacters), used for
concrete evaluations.
-/

/-- Abstracts `micromatch.isMatch(relativePath, patterns, { dot: true })`:
first argument the relative path, second the pattern list. -/
abbrev Matcher := String → List String → Bool

/-- Concrete matcher agreeing with micromatch on literal (metacharacter-free)
patterns: a literal pattern matches exactly the equal path.  In particular it
returns `false` on the empty pattern list, as micromatch does. -/
def litMatch (relPath : String) (pats : List String) : Bool :=
  pats.contains relPath

/-- One entry of `customFiles` in `CartographerConfig` (configProcessor.ts:13-18):
its own include-pattern list and an optional per-override max size. -/
structure CustomFileConfig where
  includePats : List String
  maxSize : Option Nat
deriving Repr, DecidableEq

/-- The merged configuration record (configProcessor.ts:6-24).  `customFiles`
is a JS object; `Object.entries` iterates its keys in insertion order, so it
is modelled as an ordered list (the key names are ignored by the code). -/
structure CartographerConfig where
  includePats : List String
  excludePats : List String
  maxFileSize : Nat
  skipBinaryFiles : Bool
  skipGeneratedFiles : Bool
  customFiles : Option (List CustomFileConfig)
deriving Repr, DecidableEq

/-- `ConfigProcessor.shouldIncludeFile` (configProcessor.ts:118-142).
`rel` abstracts `path.relative(this.rootPath, filePath).replace(/\\/g, '/')`. -/
def shouldIncludeFile (m : Matcher) (rel : String → String)
    (cfg : CartographerConfig) (filePath : String) : Bool :=
  let relativePath := rel filePath
  if m relativePath cfg.excludePats then
    false
  else if m relativePath cfg.includePats then
    true
  else
    match cfg.customFiles with
    | some customs => customs.any fun cc => m relativePath cc.includePats
    | none => false

/-- The override-scanning loop of `ConfigProcessor.getMaxFileSizeForPath`
(configProcessor.ts:149-155): the first override whose include list matches
and whose `maxSize` is defined returns that size; otherwise the scan
continues, falling through to the default. -/
def customMaxLoop (m : Matcher) (relativePath : String) :
    List CustomFileConfig → Nat → Nat
  | [], dflt => dflt
  | cc :: rest, dflt =>
    if m relativePath cc.includePats then
      match cc.maxSize with
      | some s => s
      | none => customMaxLoop m relativePath rest dflt
    else
      customMaxLoop m relativePath rest dflt

/-- `ConfigProcessor.getMaxFileSizeForPath` (configProcessor.ts:144-159). -/
def getMaxFileSizeForPath (m : Matcher) (rel : String → String)
    (cfg : CartographerConfig) (filePath : String) : Nat :=
  match cfg.customFiles with
  | some customs => customMaxLoop m (rel filePath) customs cfg.maxFileSize
  | none => cfg.maxFileSize

/-- Rule extraction of `parseGitignore` (configProcessor.ts:205-208):
split on newlines, keep lines whose trim is nonempty and which do not start
with `#` (the `startsWith` test is on the untrimmed line, as in the source),
then trim each kept line. -/
def parseGitignoreRules (content : String) : List String :=
  ((content.splitOn "\n").filter
    (fun line => line.trim ≠ "" && !line.startsWith "#")).map String.trim

/-- `parseGitignore` (configProcessor.ts:198-223).  `fileExists` models
`fs.existsSync(gitignorePath)`; `readContent` models `fs.readFileSync`
(`Except.error` when it throws, caught by the source's try/catch). -/
def parseGitignore (m : Matcher) (rel : String → String)
    (fileExists : Bool) (readContent : Except String String) :
    String → Bool :=
  if !fileExists then
    fun _ => false
  else
    match readContent with
    | Except.error _ => fun _ => false
    | Except.ok content =>
      let rules := parseGitignoreRules content
      fun filePath => m (rel filePath) rules

/-- One filesystem entry as seen by `readdirAsync(dir, { withFileTypes: true })`.
A directory carries `readOk`: `false` models `readdirAsync` throwing on that
directory (the error caught at codeCartographer.ts:303-306), in which case its
`entries` are unreachable. -/
inductive FSEntry : Type where
  | file (name : String)
  | dir (name : String) (readOk : Bool) (entries : List FSEntry)
deriving Repr

/-- Models `path.join(dir, entry.name)` for slash-style paths. -/
def joinPath (dir name : String) : String := dir ++ "/" ++ name

namespace CodeCartographer

mutual

/-- The body of the `entries.map` callback in `CodeCartographer.getAllFiles`
(codeCartographer.ts:281-299): a file entry contributes its own full path; a
directory entry is pruned (contributes `[]`) when `shouldIncludeFile` — here
the abstract predicate `inc` — rejects its full path, and is recursed into
otherwise. -/
def visitEntry (inc : String → Bool) (dirPath : String) : FSEntry → List String
  | .file name => [joinPath dirPath name]
  | .dir name readOk entries =>
    let fullPath := joinPath dirPath name
    if inc fullPath then getAllFiles inc fullPath readOk entries else []

/-- `CodeCartographer.getAllFiles` (codeCartographer.ts:276-307): read the
directory (a read error yields `[]` via the catch), visit every entry and
concatenate the results (`Promise.all` + `flat`). -/
def getAllFiles (inc : String → Bool) (dirPath : String) (readOk : Bool)
    (entries : List FSEntry) : List String :=
  if readOk then visitEntries inc dirPath entries else []

/-- Concatenation of per-entry results over the entry list
(the `Promise.all(entriesPromises)` + `results.flat()` of getAllFiles). -/
def visitEntries (inc : String → Bool) (dirPath : String) :
    List FSEntry → List String
  | [] => []
  | e :: es => visitEntry inc dirPath e ++ visitEntries inc dirPath es

end


/-- Models Node's `path.basename` for slash-separated paths without a
trailing separator: the part after the last `/`. -/
def basename (p : String) : String :=
  ((p.splitOn "/").getLast?).getD p

/-- Models Node's `path.extname` for such paths: the suffix of the basename
from its last dot, empty when the basename has no dot or is a pure
dot-file such as `.gitignore`. -/
def extname (p : String) : String :=
  match (basename p).splitOn "." with
  | [] => ""
  | [_] => ""
  | first :: rest =>
    if first = "" && rest.length = 1 then ""
    else "." ++ (rest.getLast?).getD ""

/-- Models Node's `path.dirname` for slash-separated paths that contain a
separator: everything before the last `/`. -/
def dirname (p : String) : String :=
  ((p.splitOn "/").dropLast).intersperse "/" |>.foldl (· ++ ·) ""

/-- Models `path.relative(root, p)` for the paths produced by
`getAllFiles`, which all lie strictly under `root`:
strip the `root ++ "/"` prefix (and give `""` on `root` itself). -/
def relativeSimple (root p : String) : String :=
  if p = root then "" else
  if (root ++ "/").isPrefixOf p then p.drop (root ++ "/").length else p

/-- `obj[key] = (obj[key] || 0) + 1` on a JS object used as a histogram;
JS objects preserve key insertion order, hence the ordered association list. -/
def bumpCount (h : List (String × Nat)) (k : String) : List (String × Nat) :=
  if h.any (fun p => p.1 = k) then
    h.map (fun p => if p.1 = k then (p.1, p.2 + 1) else p)
  else
    h ++ [(k, 1)]

/-- The run-statistics accumulator (`DocumentationStats`,
codeCartographer.ts:14-26), restricted to the numeric fields the engine
updates (timestamps excluded — wall-clock time is outside the embedding). -/
structure RunStats where
  totalFiles : Nat
  totalDocumentedFiles : Nat
  totalSize : Nat
  documentedSize : Nat
  largestFilePath : String
  largestFileSize : Nat
  fileTypes : List (String × Nat)
  totalTokenCount : Nat
deriving Repr, DecidableEq

/-- The `stats` initializer of the constructor (codeCartographer.ts:52-62). -/
def initialStats : RunStats :=
  ⟨0, 0, 0, 0, "", 0, [], 0⟩

/-- The `onProgress` callback installed in `processingOptions`
(codeCartographer.ts:115-128): bump `totalFiles`, add to `totalSize`,
update the largest file, bump the per-extension histogram. -/
def applyProgressEvent (stats : RunStats) (ev : String × Nat) : RunStats :=
  let filePath := ev.1
  let fileSize := ev.2
  { stats with
    totalFiles := stats.totalFiles + 1
    totalSize := stats.totalSize + fileSize
    largestFilePath :=
      if fileSize > stats.largestFileSize then filePath else stats.largestFilePath
    largestFileSize :=
      if fileSize > stats.largestFileSize then fileSize else stats.largestFileSize
    fileTypes := bumpCount stats.fileTypes (extname filePath).toLower }

/-- All invocations of the `onProgress` callback made by one
`fileProcessor.processFile` call, in order. -/
def applyEvents (stats : RunStats) (events : List (String × Nat)) : RunStats :=
  events.foldl applyProgressEvent stats

/-- Outcome of one `await this.fileProcessor.processFile(filePath, options)`
call (the `FileProcessor` class lives in fileProcessor.ts, outside the
embedded sources, so it is left fully abstract): it may throw (`threw`,
caught at codeCartographer.ts:151-154), return `null`, or return a
`{content, size}` result; in every case it may first have invoked the
`onProgress` callback some number of times (`events`). -/
inductive FPOutcome : Type where
  | threw (events : List (String × Nat))
  | nullResult (events : List (String × Nat))
  | okResult (content : String) (size : Nat) (events : List (String × Nat))

/-- `CodeCartographer.calculateTokenCount` (codeCartographer.ts:267-270):
`Math.ceil(content.length / 4)`, which on naturals is `(len + 3) / 4`. -/
def calculateTokenCount (content : String) : Nat :=
  (content.length + 3) / 4

/-- The per-file output unit returned by `processFile`
(codeCartographer.ts:143-147). -/
structure FileRecord where
  path : String
  content : String
  size : Nat
deriving Repr, DecidableEq

/-- Per-run mutable state of one `CodeCartographer` instance: the
`processedFiles` set (codeCartographer.ts:43) and the statistics. -/
structure RunState where
  processedFiles : List String
  stats : RunStats
deriving Repr, DecidableEq

/-- `CodeCartographer.processFile` (codeCartographer.ts:93-155).
`fp filePath maxSize` abstracts the `FileProcessor` call; the surrounding
try/catch turns `FPOutcome.threw` into a `none` result, keeping the state
changes (set insertion, progress events) already made. -/
def processFile (m : Matcher) (rel : String → String)
    (cfg : CartographerConfig) (fp : String → Nat → FPOutcome)
    (st : RunState) (filePath : String) : RunState × Option FileRecord :=
  if st.processedFiles.contains filePath then
    (st, none)
  else
    let st1 : RunState := ⟨filePath :: st.processedFiles, st.stats⟩
    if !shouldIncludeFile m rel cfg filePath then
      (st1, none)
    else
      let maxFileSize := getMaxFileSizeForPath m rel cfg filePath
      match fp filePath maxFileSize with
      | .threw events => (⟨st1.processedFiles, applyEvents st1.stats events⟩, none)
      | .nullResult events => (⟨st1.processedFiles, applyEvents st1.stats events⟩, none)
      | .okResult content size events =>
        let s1 := applyEvents st1.stats events
        let s2 := { s1 with
          totalDocumentedFiles := s1.totalDocumentedFiles + 1
          documentedSize := s1.documentedSize + size }
        let s3 :=
          if content ≠ "" then
            { s2 with totalTokenCount := s2.totalTokenCount + calculateTokenCount content }
          else s2
        (⟨st1.processedFiles, s3⟩, some ⟨rel filePath, content, size⟩)

/-- The content-phase loop of `document` (codeCartographer.ts:553-570)
flattened: files are handed to `processFile` in list order and non-null
results are appended in that order (the batching only groups awaits; the
synchronous dedup check runs before any await, so list order is faithful). -/
def processFiles (m : Matcher) (rel : String → String)
    (cfg : CartographerConfig) (fp : String → Nat → FPOutcome)
    (st : RunState) : List String → RunState × List FileRecord
  | [] => (st, [])
  | f :: fs =>
    let (st1, r) := processFile m rel cfg fp st f
    let (st2, rs) := processFiles m rel cfg fp st1 fs
    (st2, match r with
          | some rec => rec :: rs
          | none => rs)

/-- The final document of one run: the File Records and the statistics. -/
structure DocumentOutput where
  records : List FileRecord
  stats : RunStats
deriving Repr, DecidableEq

/-- The top-level `document()` operation (codeCartographer.ts:493-637)
restricted to its error-propagation skeleton for documentation type
`documentation`: enumerate candidates, process every file (all per-file
and per-directory errors already swallowed inside `processFile` /
`getAllFiles`), then write the output; `writeResult` models the final
write (codeCartographer.ts:615-633), whose failure alone is re-thrown. -/
def documentRun (m : Matcher) (rel : String → String)
    (cfg : CartographerConfig) (fp : String → Nat → FPOutcome)
    (rootDir : String) (readOk : Bool) (entries : List FSEntry)
    (writeResult : Except String Unit) : Except String DocumentOutput :=
  let files := getAllFiles (shouldIncludeFile m rel cfg) rootDir readOk entries
  let (st, records) := processFiles m rel cfg fp ⟨[], initialStats⟩ files
  match writeResult with
  | Except.error e => Except.error e
  | Except.ok _ => Except.ok ⟨records, st.stats⟩

/-- Result of `CodeCartographer.quickAnalyze` (codeCartographer.ts:467-491). -/
structure QuickStats where
  total_files : Nat
  file_types : List (String × Nat)
  directories : List (String × Nat)
deriving Repr, DecidableEq

/-- The top-level directory key used by `quickAnalyze`
(codeCartographer.ts:485-487): first segment of the file's directory
relative to the root, or `.` when the file sits directly in the root. -/
def topDirOf (rootDir file : String) : String :=
  let relativeDir := relativeSimple rootDir (dirname file)
  let t := ((relativeDir.splitOn "/").headD "")
  if t = "" then "." else t

/-- `CodeCartographer.quickAnalyze` (codeCartographer.ts:467-491): count all
files found by `getAllFiles` and build the extension and top-level-directory
histograms over that unfiltered list. -/
def quickAnalyze (inc : String → Bool) (rootDir : String) (readOk : Bool)
    (entries : List FSEntry) : QuickStats :=
  let allFiles := getAllFiles inc rootDir readOk entries
  let fileTypes := allFiles.foldl (fun h f => bumpCount h (extname f).toLower) []
  let dirs := allFiles.foldl (fun h f => bumpCount h (topDirOf rootDir f)) []
  ⟨allFiles.length, fileTypes, dirs⟩

/-- The candidate-resolution and filtering steps of
`CodeCartographer.getFileStructure` (codeCartographer.ts:160-191): with no
explicit items, enumerate recursively; then re-filter the resulting list
per file with `shouldIncludeFile`.  (The subsequent tree insertion,
`addPathToStructure`, consumes exactly this filtered list.) -/
def getFileStructureFiles (m : Matcher) (rel : String → String)
    (cfg : CartographerConfig) (rootDir : String) (readOk : Bool)
    (entries : List FSEntry) (includeItems : List String) : List String :=
  let filesToProcess :=
    if includeItems.length = 0 then
      getAllFiles (shouldIncludeFile m rel cfg) rootDir readOk entries
    else includeItems
  filesToProcess.filter fun file => shouldIncludeFile m rel cfg file

end CodeCartographer

/-- A node of the structure tree built by `getFileStructure` /
`addPathToStructure` (codeCartographer.ts:196-260): a file node carries
`size` and `extension`, a directory node carries its ordered child list. -/
inductive TreeNode : Type where
  | file (name : String) (size : Nat) (extension : String)
  | dir (name : String) (children : List TreeNode)
deriving Repr

/-- `node.name`. -/
def TreeNode.name : TreeNode → String
  | .file n _ _ => n
  | .dir n _ => n

/-- `node.type === 'directory'`. -/
def TreeNode.isDir : TreeNode → Bool
  | .file _ _ _ => false
  | .dir _ _ => true

/-- The `type` field string of a node. -/
def TreeNode.typeStr (t : TreeNode) : String :=
  if t.isDir then "directory" else "file"

namespace CodeCartographer

/-- `value.replace(/"/g, '""')`: every double-quote character doubled
(character-level model of the global regex replace). -/
def doubleQuotes (value : String) : String :=
  String.mk (value.data.flatMap fun c => if c = '"' then ['"', '"'] else [c])

/-- `CodeCartographer.escapeCSV` (codeCartographer.ts:432-438): the empty
(falsy) string stays empty; a value containing a comma, double quote or
newline (`includes`, modelled on the character list) is wrapped in double
quotes with internal quotes doubled; any other value is returned
unchanged. -/
def escapeCSV (value : String) : String :=
  if value = "" then ""
  else if value.data.contains ',' || value.data.contains '"'
      || value.data.contains '\n' then
    "\"" ++ doubleQuotes value ++ "\""
  else value

/-- The comparator of `formatStructureAsTxt`'s sort
(codeCartographer.ts:366-371) as a boolean `le` (comparator result ≤ 0):
directories strictly before files, and within equal types by
`a.name.localeCompare(b.name)`, abstracted as `lc`. -/
def nodeLE (lc : String → String → Ordering) (a b : TreeNode) : Bool :=
  if a.isDir ≠ b.isDir then a.isDir
  else lc a.name b.name ≠ Ordering.gt

/-- `[...structure.children].sort(comparator)` (codeCartographer.ts:366-371):
JS `Array.prototype.sort` is stable, modelled by a stable merge sort. -/
def sortChildren (lc : String → String → Ordering) (cs : List TreeNode) :
    List TreeNode :=
  cs.mergeSort (nodeLE lc)

mutual

/-- `CodeCartographer.formatStructureAsTxt` (codeCartographer.ts:361-383):
emit the node's own line, then — for a directory — render the children
sorted (directories first, then by `localeCompare`, abstracted as `lc`),
the last child under a `└── ` connector and the others under `├── `. -/
def formatStructureAsTxt (lc : String → String → Ordering) :
    TreeNode → String → String
  | .file n _ _, pfx => pfx ++ n ++ "\n"
  | .dir n cs, pfx =>
    pfx ++ n ++ "\n" ++ renderTxtChildren lc (sortChildren lc cs) pfx
termination_by t _ => sizeOf t
decreasing_by
  simp_wf
  have h2 : sizeOf (sortChildren lc cs) = sizeOf cs :=
    (List.mergeSort_perm cs (nodeLE lc)).sizeOf_eq_sizeOf
  rw [h2]
  omega

/-- The indexed loop over the sorted children
(codeCartographer.ts:373-379): `isLast` selects the connector; the child is
rendered with `childPrefix` (the computed `grandchildPrefix` is unused in
the source). -/
def renderTxtChildren (lc : String → String → Ordering) :
    List TreeNode → String → String
  | [], _ => ""
  | [c], pfx => formatStructureAsTxt lc c (pfx ++ "└── ")
  | c :: c2 :: rest, pfx =>
    formatStructureAsTxt lc c (pfx ++ "├── ")
      ++ renderTxtChildren lc (c2 :: rest) pfx
termination_by cs _ => sizeOf cs
decreasing_by
  all_goals simp_wf <;> omega

end

/-- `currentPath` of `formatStructureAsCsv` (codeCartographer.ts:417-419):
`parentPath ? parentPath + '/' + name : name`. -/
def csvPath (parentPath nm : String) : String :=
  if parentPath ≠ "" then parentPath ++ "/" ++ nm else nm

/-- The `size` column: `structure.size || ''` — JS renders a missing size
(directories) and the falsy size `0` as the empty string. -/
def csvSizeField (size : Nat) : String :=
  if size = 0 then "" else toString size

mutual

/-- `CodeCartographer.formatStructureAsCsv` (codeCartographer.ts:416-430):
one `type,name,path,size,extension` row per node — only `name` and the
accumulated path go through `escapeCSV` — followed, for a directory, by its
children's rows in stored order (no sorting in this renderer). -/
def formatStructureAsCsv : TreeNode → String → String
  | .file n size ext, parentPath =>
    let currentPath := csvPath parentPath n
    "file," ++ escapeCSV n ++ "," ++ escapeCSV currentPath ++ ","
      ++ csvSizeField size ++ "," ++ ext ++ "\n"
  | .dir n cs, parentPath =>
    let currentPath := csvPath parentPath n
    "directory," ++ escapeCSV n ++ "," ++ escapeCSV currentPath ++ ",,\n"
      ++ renderCsvChildren cs currentPath

/-- The `for (const child of structure.children)` loop of
`formatStructureAsCsv` (codeCartographer.ts:423-427): children are rendered
in their stored order. -/
def renderCsvChildren : List TreeNode → String → String
  | [], _ => ""
  | c :: rest, currentPath =>
    formatStructureAsCsv c currentPath ++ renderCsvChildren rest currentPath

end

end CodeCartographer

namespace CodeCartographer

mutual

/-- Full paths of all directory entries reachable in a filesystem subtree:
exactly the paths at which `getAllFiles` consults the inclusion predicate. -/
def entryDirPaths (dirPath : String) : FSEntry → List String
  | .file _ => []
  | .dir name _ entries =>
    joinPath dirPath name :: entriesDirPaths (joinPath dirPath name) entries

/-- `entryDirPaths` over an entry list. -/
def entriesDirPaths (dirPath : String) : List FSEntry → List String
  | [] => []
  | e :: es => entryDirPaths dirPath e ++ entriesDirPaths dirPath es

end

end CodeCartographer

/-- A configuration whose include and exclude lists are both empty and which
has no overrides (used to exercise the inclusion policy's fallthrough). -/
def cfgEmptyPats : CartographerConfig :=
  ⟨[], [], 500000, true, true, none⟩

/-- A small configuration with one literal include, one literal exclude and
one override carrying its own include list and max size. -/
def cfgSmall : CartographerConfig :=
  ⟨["a.ts"], ["b.ts"], 500000, true, true, some [⟨["c.ts"], some 1234⟩]⟩

open CodeCartographer

/-- A configuration with root-anchored literal patterns, for concrete
enumeration examples (one include `r/a.ts`, one exclude `r/b.ts`). -/
def cfgRooted : CartographerConfig :=
  ⟨["r/a.ts"], ["r/b.ts"], 500000, true, true, none⟩

/-- A two-child directory whose stored child order is file-before-directory. -/
def treeMixed : TreeNode :=
  TreeNode.dir "root" [TreeNode.file "b" 5 ".ts", TreeNode.dir "a" []]

/-- A file node whose name and extension both contain a comma. -/
def nodeCommaExt : TreeNode :=
  TreeNode.file "b.c,d" 5 ".c,d"

/-- A `FileProcessor` behaviour that always throws (before reporting any
progress). -/
def fpThrew : String → Nat → FPOutcome := fun _ _ => FPOutcome.threw []

/-- A `FileProcessor` behaviour that always succeeds with a fixed
4-character content. -/
def fpOk4 : String → Nat → FPOutcome := fun _ _ => FPOutcome.okResult "abcd" 4 []

/-- A 400-character string. -/
def str400 : String := String.mk (List.replicate 400 'x')

/-- A degenerate name comparator (constantly `lt`), standing in for
`localeCompare` in concrete instantiations. -/
def lcConst (_ _ : String) : Ordering := Ordering.lt

/-- `nodeLE lcConst` is transitive (case analysis on the directory bits). -/
theorem nodeLE_lcConst_trans (a b c : TreeNode) :
    nodeLE lcConst a b = true → nodeLE lcConst b c = true →
    nodeLE lcConst a c = true := by
  unfold nodeLE lcConst
  cases ha : a.isDir <;> cases hb : b.isDir <;> cases hc : c.isDir <;> simp

/-- `nodeLE lcConst` is total. -/
theorem nodeLE_lcConst_total (a b : TreeNode) :
    (nodeLE lcConst a b || nodeLE lcConst b a) = true := by
  unfold nodeLE lcConst
  cases ha : a.isDir <;> cases hb : b.isDir <;> simp

/-- C1: for every path P, `shouldIncludeFile` evaluates P relative to the
project root in a fixed order — false when any exclude pattern matches
(exclusion absolute, evaluated first, regardless of include and override
patterns); otherwise true when any include pattern matches; otherwise true
exactly when some override's own include-pattern list matches; otherwise
false. -/
theorem shouldIncludeFile_order (m : Matcher) (rel : String → String)
    (cfg : CartographerConfig) (P : String) :
    (m (rel P) cfg.excludePats = true → shouldIncludeFile m rel cfg P = false) ∧
    (m (rel P) cfg.excludePats = false → m (rel P) cfg.includePats = true →
      shouldIncludeFile m rel cfg P = true) ∧
    (m (rel P) cfg.excludePats = false → m (rel P) cfg.includePats = false →
      shouldIncludeFile m rel cfg P =
        (cfg.customFiles.getD []).any fun cc => m (rel P) cc.includePats) := by
  refine ⟨fun h => by simp [shouldIncludeFile, h], fun h1 h2 => by
    simp [shouldIncludeFile, h1, h2], fun h1 h2 => ?_⟩
  cases hc : cfg.customFiles with
  | none => simp [shouldIncludeFile, h1, h2, hc]
  | some customs => simp [shouldIncludeFile, h1, h2, hc]

/-- Witness for C1 on `cfgSmall` with the literal matcher: an excluded path,
an included path, and a path decided by the override fallback. -/
theorem shouldIncludeFile_order_witness :
    shouldIncludeFile litMatch id cfgSmall "b.ts" = false ∧
    shouldIncludeFile litMatch id cfgSmall "a.ts" = true ∧
    shouldIncludeFile litMatch id cfgSmall "c.ts" =
      ((cfgSmall.customFiles.getD []).any fun cc =>
        litMatch (id "c.ts") cc.includePats) :=
  ⟨(shouldIncludeFile_order litMatch id cfgSmall "b.ts").1 (by decide),
   (shouldIncludeFile_order litMatch id cfgSmall "a.ts").2.1 (by decide) (by decide),
   (shouldIncludeFile_order litMatch id cfgSmall "c.ts").2.2 (by decide) (by decide)⟩

/-- The override scan equals a first-hit search: the first override whose
include list matches and whose max size is defined supplies the result. -/
theorem customMaxLoop_eq_findSome (m : Matcher) (relP : String)
    (l : List CustomFileConfig) (d : Nat) :
    customMaxLoop m relP l d =
      (l.findSome? fun cc =>
        if m relP cc.includePats then cc.maxSize else none).getD d := by
  induction l with
  | nil => simp [customMaxLoop]
  | cons cc rest ih =>
    by_cases h : m relP cc.includePats = true
    · cases hm : cc.maxSize <;>
        simp [customMaxLoop, List.findSome?_cons, h, hm, ih]
    · simp at h
      simp [customMaxLoop, List.findSome?_cons, h, ih]

/-- C3: `getMaxFileSizeForPath` scans the overrides in declaration order and
returns the explicit max size of the first override whose include-pattern
list matches P and which defines one; when no override's include list
matches P it returns the global max file size. -/
theorem getMaxFileSizeForPath_spec (m : Matcher) (rel : String → String)
    (cfg : CartographerConfig) (P : String) :
    ((∀ cc ∈ cfg.customFiles.getD [], m (rel P) cc.includePats = false) →
      getMaxFileSizeForPath m rel cfg P = cfg.maxFileSize) ∧
    (getMaxFileSizeForPath m rel cfg P =
      ((cfg.customFiles.getD []).findSome? fun cc =>
        if m (rel P) cc.includePats then cc.maxSize else none).getD
          cfg.maxFileSize) := by
  have hmain : getMaxFileSizeForPath m rel cfg P =
      ((cfg.customFiles.getD []).findSome? fun cc =>
        if m (rel P) cc.includePats then cc.maxSize else none).getD
          cfg.maxFileSize := by
    cases hc : cfg.customFiles with
    | none => simp [getMaxFileSizeForPath, hc]
    | some customs =>
      simp [getMaxFileSizeForPath, hc, customMaxLoop_eq_findSome]
  refine ⟨fun hnone => ?_, hmain⟩
  rw [hmain]
  have : ((cfg.customFiles.getD []).findSome? fun cc =>
      if m (rel P) cc.includePats then cc.maxSize else none) = none := by
    rw [List.findSome?_eq_none_iff]
    intro cc hcc
    simp [hnone cc hcc]
  simp [this]

/-- Witness for C3 on `cfgSmall`: no override matches `z.ts`, so the global
max size is returned; the override matching `c.ts` supplies its own size. -/
theorem getMaxFileSizeForPath_spec_witness :
    getMaxFileSizeForPath litMatch id cfgSmall "z.ts" = cfgSmall.maxFileSize ∧
    getMaxFileSizeForPath litMatch id cfgSmall "c.ts" =
      ((cfgSmall.customFiles.getD []).findSome? fun cc =>
        if litMatch (id "c.ts") cc.includePats then cc.maxSize else none).getD
          cfgSmall.maxFileSize :=
  ⟨(getMaxFileSizeForPath_spec litMatch id cfgSmall "z.ts").1 (by decide),
   (getMaxFileSizeForPath_spec litMatch id cfgSmall "c.ts").2⟩

/-- C4: when the ignore file does not exist, and likewise when reading it
fails, the predicate returned by `parseGitignore` is constantly false for
every candidate path (and the compilation itself is total — absence of the
ignore file is not an error condition). -/
theorem parseGitignore_absent_false (m : Matcher) (rel : String → String)
    (readContent : Except String String) (e : String) (p : String) :
    parseGitignore m rel false readContent p = false ∧
    parseGitignore m rel true (Except.error e) p = false := by
  constructor <;> simp [parseGitignore]

/-- C2 is refuted: with empty include and exclude pattern lists (and no
overrides), no exclude pattern matches the directory `r/d`, yet the
enumeration does not descend into it — `getAllFiles` returns `[]` instead
of visiting `r/d/f`, because pruning consults the whole inclusion policy,
not only the exclude list. -/
theorem getAllFiles_prunes_nonexcluded_dir :
    CodeCartographer.getAllFiles (shouldIncludeFile litMatch id cfgEmptyPats)
      "r" true [FSEntry.dir "d" true [FSEntry.file "f"]] = [] ∧
    litMatch (id "r/d") cfgEmptyPats.excludePats = false := by
  constructor
  · simp [CodeCartographer.getAllFiles, visitEntries, visitEntry,
      shouldIncludeFile, litMatch, cfgEmptyPats, joinPath]
  · decide

/-- C2 (amended): the recursive enumeration prunes a subtree exactly when
`shouldIncludeFile` rejects the directory's own path — a directory whose
path is accepted by the full inclusion policy is descended into, one whose
path is rejected (in particular every directory an exclude pattern
matches, but also any directory matching neither include nor override
patterns) is not. -/
theorem visitEntry_prune_spec (m : Matcher) (rel : String → String)
    (cfg : CartographerConfig) (dirPath name : String) (readOk : Bool)
    (entries : List FSEntry) :
    (shouldIncludeFile m rel cfg (joinPath dirPath name) = false →
      visitEntry (shouldIncludeFile m rel cfg) dirPath
        (FSEntry.dir name readOk entries) = []) ∧
    (shouldIncludeFile m rel cfg (joinPath dirPath name) = true →
      visitEntry (shouldIncludeFile m rel cfg) dirPath
        (FSEntry.dir name readOk entries) =
        CodeCartographer.getAllFiles (shouldIncludeFile m rel cfg)
          (joinPath dirPath name) readOk entries) ∧
    (m (rel (joinPath dirPath name)) cfg.excludePats = true →
      visitEntry (shouldIncludeFile m rel cfg) dirPath
        (FSEntry.dir name readOk entries) = []) := by
  refine ⟨fun h => ?_, fun h => ?_, fun h => ?_⟩
  · simp [visitEntry, h]
  · simp [visitEntry, h]
  · have hfalse : shouldIncludeFile m rel cfg (joinPath dirPath name) = false := by
      simp [shouldIncludeFile, h]
    simp [visitEntry, hfalse]

/-- Witness for the amended C2 on `cfgRooted`: the excluded directory
`r/b.ts` is pruned (both via the policy and via the exclusion clause), the
included directory `r/a.ts` is descended into. -/
theorem visitEntry_prune_spec_witness :
    (visitEntry (shouldIncludeFile litMatch id cfgRooted) "r"
      (FSEntry.dir "b.ts" true [FSEntry.file "x"]) = []) ∧
    (visitEntry (shouldIncludeFile litMatch id cfgRooted) "r"
      (FSEntry.dir "a.ts" true [FSEntry.file "x"]) =
      CodeCartographer.getAllFiles (shouldIncludeFile litMatch id cfgRooted)
        (joinPath "r" "a.ts") true [FSEntry.file "x"]) :=
  ⟨(visitEntry_prune_spec litMatch id cfgRooted "r" "b.ts" true
      [FSEntry.file "x"]).2.2 (by decide),
   (visitEntry_prune_spec litMatch id cfgRooted "r" "a.ts" true
      [FSEntry.file "x"]).2.1 (by decide)⟩

/-- C5: a `FileProcessor` error on a single file is caught and yields a
`none` result (no File Record); a directory whose read fails contributes
zero entries; and the top-level run returns an error exactly when the final
write fails — per-file and per-directory errors never propagate out of
`documentRun`. -/
theorem document_error_containment (m : Matcher) (rel : String → String)
    (cfg : CartographerConfig) (fp : String → Nat → FPOutcome)
    (st : RunState) (filePath : String) (events : List (String × Nat))
    (inc : String → Bool) (dirPath rootDir : String) (entries : List FSEntry)
    (readOk : Bool) (writeResult : Except String Unit) :
    (fp filePath (getMaxFileSizeForPath m rel cfg filePath) =
        FPOutcome.threw events →
      (processFile m rel cfg fp st filePath).2 = none) ∧
    (CodeCartographer.getAllFiles inc dirPath false entries = []) ∧
    ((∃ e, documentRun m rel cfg fp rootDir readOk entries writeResult =
        Except.error e) ↔ (∃ e, writeResult = Except.error e)) := by
  refine ⟨fun h => ?_, ?_, ?_⟩
  · by_cases h1 : filePath ∈ st.processedFiles
    · simp [processFile, h1]
    · by_cases h2 : shouldIncludeFile m rel cfg filePath = true
      · simp [processFile, h1, h2, h]
      · simp only [Bool.not_eq_true] at h2
        simp [processFile, h1, h2]
  · simp [CodeCartographer.getAllFiles]
  · cases writeResult <;> simp [documentRun]

/-- Witness for C5: a throwing `FileProcessor` produces no record for
`r/a.ts`, and a run whose final write fails reports exactly that error. -/
theorem document_error_containment_witness :
    (processFile litMatch id cfgRooted fpThrew ⟨[], initialStats⟩ "r/a.ts").2
        = none ∧
    ((∃ e, documentRun litMatch id cfgRooted fpThrew "r" true []
        (Except.error "disk full") = Except.error e) ↔
      (∃ e, (Except.error "disk full" : Except String Unit) =
        Except.error e)) :=
  ⟨(document_error_containment litMatch id cfgRooted fpThrew
      ⟨[], initialStats⟩ "r/a.ts" [] (fun _ => true) "r" "r" [] true
      (Except.error "disk full")).1 rfl,
   (document_error_containment litMatch id cfgRooted fpThrew
      ⟨[], initialStats⟩ "r/a.ts" [] (fun _ => true) "r" "r" [] true
      (Except.error "disk full")).2.2⟩

/-- An already-processed path leaves `processFile` a no-op. -/
theorem processFile_already (m : Matcher) (rel : String → String)
    (cfg : CartographerConfig) (fp : String → Nat → FPOutcome)
    (st : RunState) (p : String) (h : p ∈ st.processedFiles) :
    processFile m rel cfg fp st p = (st, none) := by
  simp [processFile, h]

/-- After `processFile st p`, the path `p` is in the processed set. -/
theorem processFile_self_mem (m : Matcher) (rel : String → String)
    (cfg : CartographerConfig) (fp : String → Nat → FPOutcome)
    (st : RunState) (p : String) :
    p ∈ (processFile m rel cfg fp st p).1.processedFiles := by
  by_cases h1 : p ∈ st.processedFiles
  · simp [processFile, h1]
  · by_cases h2 : shouldIncludeFile m rel cfg p = true
    · cases hfp : fp p (getMaxFileSizeForPath m rel cfg p) <;>
        simp [processFile, h1, h2, hfp]
    · simp only [Bool.not_eq_true] at h2
      simp [processFile, h1, h2]

/-- `processFile` never removes a path from the processed set. -/
theorem processFile_processed_mono (m : Matcher) (rel : String → String)
    (cfg : CartographerConfig) (fp : String → Nat → FPOutcome)
    (st : RunState) (p q : String) (h : q ∈ st.processedFiles) :
    q ∈ (processFile m rel cfg fp st p).1.processedFiles := by
  by_cases h1 : p ∈ st.processedFiles
  · simp [processFile, h1, h]
  · by_cases h2 : shouldIncludeFile m rel cfg p = true
    · cases hfp : fp p (getMaxFileSizeForPath m rel cfg p) <;>
        simp [processFile, h1, h2, hfp, h]
    · simp only [Bool.not_eq_true] at h2
      simp [processFile, h1, h2, h]

/-- A later occurrence of an already-processed path contributes nothing. -/
theorem processFiles_skip (m : Matcher) (rel : String → String)
    (cfg : CartographerConfig) (fp : String → Nat → FPOutcome) (p : String) :
    ∀ (l2 l3 : List String) (st : RunState), p ∈ st.processedFiles →
      processFiles m rel cfg fp st (l2 ++ p :: l3) =
        processFiles m rel cfg fp st (l2 ++ l3)
  | [], l3, st, h => by
    simp only [List.nil_append]
    rw [processFiles, processFile_already m rel cfg fp st p h]
  | a :: l2, l3, st, h => by
    simp only [List.cons_append]
    rw [processFiles, processFiles]
    rcases hpf : processFile m rel cfg fp st a with ⟨st1, r⟩
    have hmem : p ∈ st1.processedFiles := by
      have hmono := processFile_processed_mono m rel cfg fp st a p h
      rw [hpf] at hmono
      exact hmono
    dsimp only
    rw [processFiles_skip m rel cfg fp p l2 l3 st1 hmem]

/-- A candidate list containing the same path twice produces the same run
as the list with the later occurrence removed. -/
theorem processFiles_dup (m : Matcher) (rel : String → String)
    (cfg : CartographerConfig) (fp : String → Nat → FPOutcome) (p : String) :
    ∀ (l1 l2 l3 : List String) (st : RunState),
      processFiles m rel cfg fp st (l1 ++ p :: l2 ++ p :: l3) =
        processFiles m rel cfg fp st (l1 ++ p :: l2 ++ l3)
  | [], l2, l3, st => by
    simp only [List.nil_append]
    simp only [processFiles]
    rcases hpf : processFile m rel cfg fp st p with ⟨st1, r⟩
    have hmem : p ∈ st1.processedFiles := by
      have hsm := processFile_self_mem m rel cfg fp st p
      rw [hpf] at hsm
      exact hsm
    dsimp only
    simp only [List.append_eq]
    rw [processFiles_skip m rel cfg fp p l2 l3 st1 hmem]
  | a :: l1, l2, l3, st => by
    simp only [List.cons_append]
    simp only [processFiles]
    rcases hpf : processFile m rel cfg fp st a with ⟨st1, r⟩
    dsimp only
    rw [processFiles_dup m rel cfg fp p l1 l2 l3 st1]

/-- C6: within one run, calling `processFile` again on a path already in the
per-run processed set is a no-op — it returns `null`, appends no File
Record, and leaves the whole run state (statistics included) unchanged;
consequently a path occurring twice in the candidate list yields the same
run as if the second occurrence were absent, i.e. exactly one File Record
for that path. -/
theorem processFile_idempotent (m : Matcher) (rel : String → String)
    (cfg : CartographerConfig) (fp : String → Nat → FPOutcome)
    (st : RunState) (p : String) (l1 l2 l3 : List String) :
    (p ∈ st.processedFiles → processFile m rel cfg fp st p = (st, none)) ∧
    (processFiles m rel cfg fp st (l1 ++ p :: l2 ++ p :: l3) =
      processFiles m rel cfg fp st (l1 ++ p :: l2 ++ l3)) :=
  ⟨processFile_already m rel cfg fp st p,
   processFiles_dup m rel cfg fp p l1 l2 l3 st⟩

/-- Witness for C6: re-processing `r/a.ts` when it is already in the
processed set changes nothing and yields no record. -/
theorem processFile_idempotent_witness :
    processFile litMatch id cfgRooted fpOk4 ⟨["r/a.ts"], initialStats⟩
      "r/a.ts" = (⟨["r/a.ts"], initialStats⟩, none) :=
  (processFile_idempotent litMatch id cfgRooted fpOk4
    ⟨["r/a.ts"], initialStats⟩ "r/a.ts" [] [] []).1 (by decide)

/-- The progress callback never touches the token counter. -/
theorem applyEvents_totalTokenCount :
    ∀ (evs : List (String × Nat)) (s : RunStats),
      (applyEvents s evs).totalTokenCount = s.totalTokenCount
  | [], _ => rfl
  | e :: evs, s => by
    show (applyEvents (applyProgressEvent s e) evs).totalTokenCount
        = s.totalTokenCount
    rw [applyEvents_totalTokenCount evs (applyProgressEvent s e)]
    rfl

/-- One `processFile` call adds to the token counter exactly the estimate
of the record it produces (nothing when it produces none). -/
theorem processFile_tokenCount (m : Matcher) (rel : String → String)
    (cfg : CartographerConfig) (fp : String → Nat → FPOutcome)
    (st : RunState) (p : String) :
    (processFile m rel cfg fp st p).1.stats.totalTokenCount =
      st.stats.totalTokenCount +
        (match (processFile m rel cfg fp st p).2 with
          | some r => calculateTokenCount r.content
          | none => 0) := by
  by_cases h1 : p ∈ st.processedFiles
  · simp [processFile, h1]
  · by_cases h2 : shouldIncludeFile m rel cfg p = true
    · cases hfp : fp p (getMaxFileSizeForPath m rel cfg p) with
      | threw events =>
        simp [processFile, h1, h2, hfp, applyEvents_totalTokenCount]
      | nullResult events =>
        simp [processFile, h1, h2, hfp, applyEvents_totalTokenCount]
      | okResult content size events =>
        by_cases hc : content = ""
        · simp [processFile, h1, h2, hfp, hc, applyEvents_totalTokenCount,
            calculateTokenCount]
        · simp [processFile, h1, h2, hfp, hc, applyEvents_totalTokenCount]
    · simp only [Bool.not_eq_true] at h2
      simp [processFile, h1, h2]

/-- The total token count over a run is the initial count plus the sum of
the per-record estimates. -/
theorem processFiles_tokenCount (m : Matcher) (rel : String → String)
    (cfg : CartographerConfig) (fp : String → Nat → FPOutcome) :
    ∀ (l : List String) (st : RunState),
      (processFiles m rel cfg fp st l).1.stats.totalTokenCount =
        st.stats.totalTokenCount +
          (((processFiles m rel cfg fp st l).2.map fun r =>
              calculateTokenCount r.content).sum)
  | [], st => by simp [processFiles]
  | f :: fs, st => by
    rw [processFiles]
    rcases hpf : processFile m rel cfg fp st f with ⟨st1, r⟩
    dsimp only
    rcases hps : processFiles m rel cfg fp st1 fs with ⟨st2, rs⟩
    have h1 := processFile_tokenCount m rel cfg fp st f
    rw [hpf] at h1
    have h2 := processFiles_tokenCount m rel cfg fp fs st1
    rw [hps] at h2
    dsimp only at h1 h2 ⊢
    cases r with
    | none =>
      simp only at h1
      simp only [List.map, List.sum_cons]
      omega
    | some record =>
      simp only at h1
      simp only [List.map, List.sum_cons]
      omega

/-- C7: each documented file contributes `ceil(characterCount / 4)` tokens
(`calculateTokenCount`), the run total is the initial count plus the sum of
the per-file estimates, and a decoded content of exactly 400 characters
contributes exactly 100. -/
theorem tokenCount_spec (m : Matcher) (rel : String → String)
    (cfg : CartographerConfig) (fp : String → Nat → FPOutcome)
    (st : RunState) (l : List String) (c : String) :
    ((processFiles m rel cfg fp st l).1.stats.totalTokenCount =
      st.stats.totalTokenCount +
        (((processFiles m rel cfg fp st l).2.map fun r =>
            calculateTokenCount r.content).sum)) ∧
    (c.length ≤ 4 * calculateTokenCount c ∧
      4 * calculateTokenCount c < c.length + 4) ∧
    (c.length = 400 → calculateTokenCount c = 100) := by
  refine ⟨processFiles_tokenCount m rel cfg fp l st, ⟨?_, ?_⟩, fun h => ?_⟩
  · simp only [calculateTokenCount]
    omega
  · simp only [calculateTokenCount]
    omega
  · simp [calculateTokenCount, h]

set_option maxRecDepth 8192 in
/-- Witness for C7: the 400-character string contributes exactly 100. -/
theorem tokenCount_spec_witness : calculateTokenCount str400 = 100 :=
  (tokenCount_spec litMatch id cfgRooted fpOk4 ⟨[], initialStats⟩ []
    str400).2.2 (by decide)

/-- C8 is refuted: sibling ordering is not applied in every output format.
Rendering `treeMixed` (stored children: file `b`, then directory `a`) as
CSV emits the file row before the directory row — the rows differ from the
CSV rendering of the same tree with its children ordered directories
first. -/
theorem formatStructureAsCsv_not_sorted :
    formatStructureAsCsv treeMixed "" =
      "directory,root,root,,\n" ++ "file,b,root/b,5,.ts\n"
        ++ "directory,a,root/a,,\n" ∧
    formatStructureAsCsv treeMixed "" ≠
      formatStructureAsCsv
        (TreeNode.dir "root" [TreeNode.dir "a" [], TreeNode.file "b" 5 ".ts"])
        "" := by
  have h1 : formatStructureAsCsv treeMixed "" =
      "directory,root,root,,\n" ++ "file,b,root/b,5,.ts\n"
        ++ "directory,a,root/a,,\n" := by
    simp [treeMixed, formatStructureAsCsv, renderCsvChildren, csvPath,
      csvSizeField, escapeCSV]
    decide
  have h2 : formatStructureAsCsv
      (TreeNode.dir "root" [TreeNode.dir "a" [], TreeNode.file "b" 5 ".ts"])
      "" =
      "directory,root,root,,\n" ++ "directory,a,root/a,,\n"
        ++ "file,b,root/b,5,.ts\n" := by
    simp [formatStructureAsCsv, renderCsvChildren, csvPath,
      csvSizeField, escapeCSV]
    decide
  refine ⟨h1, ?_⟩
  rw [h1, h2]
  decide

/-- C8 (amended): the sibling ordering — directories before files, then by
the name comparator — is applied at render time by the plain-text renderer
only: for any comparator `lc` inducing a transitive and total order, the
child list the text renderer lays out is `sortChildren lc cs`, which is a
permutation of the stored children ordered directories-first then by `lc`;
the CSV renderer instead emits the children's rows in stored order. -/
theorem render_sibling_order (lc : String → String → Ordering)
    (htrans : ∀ a b c, nodeLE lc a b = true → nodeLE lc b c = true →
      nodeLE lc a c = true)
    (htotal : ∀ a b, (nodeLE lc a b || nodeLE lc b a) = true)
    (n : String) (cs : List TreeNode) (pfx parentPath : String) :
    (sortChildren lc cs).Pairwise (fun a b => nodeLE lc a b = true) ∧
    (sortChildren lc cs).Perm cs ∧
    (formatStructureAsTxt lc (TreeNode.dir n cs) pfx =
      pfx ++ n ++ "\n" ++ renderTxtChildren lc (sortChildren lc cs) pfx) ∧
    (formatStructureAsCsv (TreeNode.dir n cs) parentPath =
      "directory," ++ escapeCSV n ++ "," ++ escapeCSV (csvPath parentPath n)
        ++ ",,\n" ++ renderCsvChildren cs (csvPath parentPath n)) := by
  refine ⟨?_, ?_, ?_, ?_⟩
  · have hs := List.sorted_mergeSort htrans htotal cs
    simpa [sortChildren] using hs
  · exact List.mergeSort_perm cs (nodeLE lc)
  · simp [formatStructureAsTxt]
  · simp [formatStructureAsCsv]

/-- Witness for the amended C8 at `lcConst` and the mixed child list. -/
theorem render_sibling_order_witness :
    (sortChildren lcConst [TreeNode.file "b" 5 ".ts", TreeNode.dir "a" []]).Pairwise
      (fun a b => nodeLE lcConst a b = true) ∧
    (sortChildren lcConst
      [TreeNode.file "b" 5 ".ts", TreeNode.dir "a" []]).Perm
      [TreeNode.file "b" 5 ".ts", TreeNode.dir "a" []] ∧
    (formatStructureAsTxt lcConst
      (TreeNode.dir "root" [TreeNode.file "b" 5 ".ts", TreeNode.dir "a" []])
      "" =
      "" ++ "root" ++ "\n" ++ renderTxtChildren lcConst
        (sortChildren lcConst
          [TreeNode.file "b" 5 ".ts", TreeNode.dir "a" []]) "") ∧
    (formatStructureAsCsv
      (TreeNode.dir "root" [TreeNode.file "b" 5 ".ts", TreeNode.dir "a" []])
      "" =
      "directory," ++ escapeCSV "root" ++ "," ++ escapeCSV (csvPath "" "root")
        ++ ",,\n" ++ renderCsvChildren
          [TreeNode.file "b" 5 ".ts", TreeNode.dir "a" []]
          (csvPath "" "root")) :=
  render_sibling_order lcConst nodeLE_lcConst_trans nodeLE_lcConst_total
    "root" [TreeNode.file "b" 5 ".ts", TreeNode.dir "a" []] "" ""

/-- C9 is refuted: not every CSV field containing a comma is quoted.  For a
file node named `b.c,d` with extension `.c,d`, the emitted row escapes the
name and path but leaves the comma-containing extension field raw, so the
row differs from one with every field escaped. -/
theorem formatStructureAsCsv_raw_extension :
    formatStructureAsCsv nodeCommaExt "r" =
      "file,\"b.c,d\",\"r/b.c,d\",5,.c,d\n" ∧
    formatStructureAsCsv nodeCommaExt "r" ≠
      "file," ++ escapeCSV "b.c,d" ++ "," ++ escapeCSV "r/b.c,d" ++ ","
        ++ escapeCSV "5" ++ "," ++ escapeCSV ".c,d" ++ "\n" := by
  have h1 : formatStructureAsCsv nodeCommaExt "r" =
      "file,\"b.c,d\",\"r/b.c,d\",5,.c,d\n" := by
    simp [nodeCommaExt, formatStructureAsCsv, csvPath, csvSizeField,
      escapeCSV, doubleQuotes]
    decide
  refine ⟨h1, ?_⟩
  rw [h1]
  decide

/-- C9 (amended): `escapeCSV` wraps a nonempty value containing a comma,
double quote or newline in double quotes with internal quotes doubled and
renders every other value unchanged — and the CSV rows apply it to the name
and path fields only, emitting the type, size and extension columns raw; in
particular a path `a,b".ts` is rendered as `"a,b"".ts"`. -/
theorem escapeCSV_spec (value n ext : String) (size : Nat) (pp : String) :
    (value ≠ "" →
      (value.data.contains ',' || value.data.contains '"'
        || value.data.contains '\n') = true →
      escapeCSV value = "\"" ++ doubleQuotes value ++ "\"") ∧
    ((value.data.contains ',' || value.data.contains '"'
        || value.data.contains '\n') = false →
      escapeCSV value = value) ∧
    (escapeCSV "a,b\".ts" = "\"a,b\"\".ts\"") ∧
    (formatStructureAsCsv (TreeNode.file n size ext) pp =
      "file," ++ escapeCSV n ++ "," ++ escapeCSV (csvPath pp n) ++ ","
        ++ csvSizeField size ++ "," ++ ext ++ "\n") := by
  refine ⟨fun h1 h2 => ?_, fun h => ?_, ?_, ?_⟩
  · rw [escapeCSV, if_neg h1, if_pos h2]
  · by_cases he : value = ""
    · rw [he]
      decide
    · rw [escapeCSV, if_neg he, if_neg ?_]
      rw [h]
      simp
  · decide
  · simp [formatStructureAsCsv]

/-- Witness for the amended C9: a comma-carrying value is quote-wrapped, a
plain value passes through unchanged. -/
theorem escapeCSV_spec_witness :
    escapeCSV ".c,d" = "\"" ++ doubleQuotes ".c,d" ++ "\"" ∧
    escapeCSV "abc" = "abc" :=
  ⟨(escapeCSV_spec ".c,d" "n" ".ts" 5 "r").1 (by decide) (by decide),
   (escapeCSV_spec "abc" "n" ".ts" 5 "r").2.1 (by decide)⟩

/-- A file entry of a successfully read directory always contributes its
path, whatever the inclusion predicate says about the file itself. -/
theorem file_mem_visitEntries (inc : String → Bool) (dp name : String) :
    ∀ (entries : List FSEntry), FSEntry.file name ∈ entries →
      joinPath dp name ∈ visitEntries inc dp entries
  | e :: es, h => by
    rw [visitEntries]
    cases h with
    | head => exact List.mem_append_left _ (by simp [visitEntry])
    | tail _ h2 =>
      exact List.mem_append_right _ (file_mem_visitEntries inc dp name es h2)

mutual

/-- The enumeration of one entry depends on the inclusion predicate only at
directory paths of the subtree. -/
theorem visitEntry_congr (inc inc' : String → Bool) :
    ∀ (e : FSEntry) (dp : String),
      (∀ d ∈ entryDirPaths dp e, inc d = inc' d) →
      visitEntry inc dp e = visitEntry inc' dp e
  | .file name, dp, _ => by rw [visitEntry, visitEntry]
  | .dir name readOk entries, dp, h => by
    have hd : inc (joinPath dp name) = inc' (joinPath dp name) :=
      h _ (by rw [entryDirPaths]; exact List.mem_cons_self _ _)
    by_cases hi : inc (joinPath dp name) = true
    · have hi' : inc' (joinPath dp name) = true := by rw [← hd]; exact hi
      rw [visitEntry, visitEntry]
      simp only [hi, hi', if_true]
      cases readOk with
      | false => simp [CodeCartographer.getAllFiles]
      | true =>
        simp only [CodeCartographer.getAllFiles, if_true]
        exact visitEntries_congr inc inc' entries (joinPath dp name)
          (fun d hd2 => h d (by
            rw [entryDirPaths]
            exact List.mem_cons_of_mem _ hd2))
    · simp only [Bool.not_eq_true] at hi
      have hi' : inc' (joinPath dp name) = false := by rw [← hd]; exact hi
      rw [visitEntry, visitEntry]
      simp [hi, hi']

/-- `visitEntry_congr` over an entry list. -/
theorem visitEntries_congr (inc inc' : String → Bool) :
    ∀ (entries : List FSEntry) (dp : String),
      (∀ d ∈ entriesDirPaths dp entries, inc d = inc' d) →
      visitEntries inc dp entries = visitEntries inc' dp entries
  | [], _, _ => by rw [visitEntries, visitEntries]
  | e :: es, dp, h => by
    rw [visitEntries, visitEntries]
    rw [visitEntry_congr inc inc' e dp (fun d hd => h d (by
      rw [entriesDirPaths]
      exact List.mem_append_left _ hd))]
    rw [visitEntries_congr inc inc' es dp (fun d hd => h d (by
      rw [entriesDirPaths]
      exact List.mem_append_right _ hd))]

end

/-- C10: the recursive enumeration applies the inclusion policy only to
directory entries — a file entry of a visited directory is listed no matter
what the policy says about the file's own path, and the whole enumeration
is unchanged under any two predicates agreeing on directory paths;
`quickAnalyze` counts exactly this unfiltered list, while the structure
phase and the content phase re-filter it per file with
`shouldIncludeFile`. -/
theorem getAllFiles_policy_on_dirs_only (inc inc' : String → Bool)
    (m : Matcher) (rel : String → String) (cfg : CartographerConfig)
    (fp : String → Nat → FPOutcome) (st : RunState)
    (dirPath rootDir name f : String) (entries : List FSEntry)
    (readOk : Bool) :
    (FSEntry.file name ∈ entries →
      joinPath dirPath name ∈
        CodeCartographer.getAllFiles inc dirPath true entries) ∧
    ((∀ d ∈ entriesDirPaths dirPath entries, inc d = inc' d) →
      CodeCartographer.getAllFiles inc dirPath readOk entries =
        CodeCartographer.getAllFiles inc' dirPath readOk entries) ∧
    ((quickAnalyze inc rootDir readOk entries).total_files =
      (CodeCartographer.getAllFiles inc rootDir readOk entries).length) ∧
    (shouldIncludeFile m rel cfg f = false →
      (f ∉ getFileStructureFiles m rel cfg rootDir readOk entries []) ∧
      (processFile m rel cfg fp st f).2 = none) := by
  refine ⟨fun h => ?_, fun h => ?_, ?_, fun h => ⟨?_, ?_⟩⟩
  · simp only [CodeCartographer.getAllFiles, if_true]
    exact file_mem_visitEntries inc dirPath name entries h
  · cases readOk with
    | false => simp [CodeCartographer.getAllFiles]
    | true =>
      simp only [CodeCartographer.getAllFiles, if_true]
      exact visitEntries_congr inc inc' entries dirPath h
  · rfl
  · simp [getFileStructureFiles, List.mem_filter, h]
  · by_cases h1 : f ∈ st.processedFiles
    · simp [processFile, h1]
    · simp [processFile, h1, h]

/-- Witness for C10: a file directly under the root appears in the
enumeration whatever the predicate, two predicates that agree on (the zero)
directory paths enumerate identically, and the pattern-rejected file
`r/b.ts` is dropped again by both per-file filters. -/
theorem getAllFiles_policy_on_dirs_only_witness :
    (joinPath "r" "b.ts" ∈
      CodeCartographer.getAllFiles (fun _ => true) "r" true
        [FSEntry.file "b.ts"]) ∧
    (CodeCartographer.getAllFiles (fun _ => true) "r" true
        [FSEntry.file "b.ts"] =
      CodeCartographer.getAllFiles (fun _ => false) "r" true
        [FSEntry.file "b.ts"]) ∧
    ("r/b.ts" ∉ getFileStructureFiles litMatch id cfgRooted "r" true
        [FSEntry.file "b.ts"] []) ∧
    ((processFile litMatch id cfgRooted fpOk4 ⟨[], initialStats⟩
        "r/b.ts").2 = none) := by
  have happ := getAllFiles_policy_on_dirs_only (fun _ => true) (fun _ => false)
    litMatch id cfgRooted fpOk4 ⟨[], initialStats⟩ "r" "r" "b.ts" "r/b.ts"
    [FSEntry.file "b.ts"] true
  refine ⟨?_, ?_, ?_, ?_⟩
  · exact happ.1 (List.mem_cons_self _ _)
  · exact happ.2.1 (fun d hd => by
      rw [entriesDirPaths, entryDirPaths, entriesDirPaths] at hd
      simp at hd)
  · exact (happ.2.2.2 (by decide)).1
  · exact (happ.2.2.2 (by decide)).2
